import Mathlib

/-!
Verification development for the FPCS dashboard bounded conversational
memory manager (`src/js/memory-blocks.js`).  The JavaScript module is
shallowly embedded: each JS function becomes an executable Lean
definition over explicit state, machine time (`Date.now()`) is threaded
as a `Nat` parameter of epoch milliseconds, and the pseudo-random
session-id generator is threaded as a `String` parameter.  JS strings
are modelled as Lean `String`s (faithful for the ASCII data the module
manipulates; `String.length` counts characters where JS counts UTF-16
units, which coincide on ASCII).  Persistence (`localStorage`) writes
are fire-and-forget in the source, with in-memory state authoritative,
so mutation operations are modelled on the in-memory state only; the
load path (`_load`) takes the stored snapshot as an explicit input.
-/

namespace FPCS

/-! ## Configuration constants (lines 31-36 of memory-blocks.js) -/

def SUMMARIZE_THRESHOLD : Nat := 80
def SUMMARIZE_KEEP_RECENT : Nat := 24
def MAX_SUMMARIES : Nat := 20
def DEFAULT_BLOCK_LIMIT : Nat := 2000
def INACTIVITY_TIMEOUT : Nat := 30 * 60 * 1000

/-! ## JavaScript string primitives

Character-list implementations of the `String.prototype` operations the
module uses.  `jsIsWs` is the ASCII fragment of the JS whitespace class. -/

def jsIsWs (c : Char) : Bool :=
  c = ' ' || c = '\t' || c = '\n' || c = '\x0d' || c = '\x0b' || c = '\x0c'

def jsIsNl (c : Char) : Bool := c = '\n' || c = '\x0d'

/-- Index of the first occurrence of `pat` in `hay` (JS `indexOf`,
`none` standing for `-1`).  The empty pattern occurs at index 0. -/
def subIdx (hay pat : List Char) : Option Nat :=
  match hay with
  | [] => if pat.isEmpty then some 0 else none
  | c :: t =>
      if pat.isPrefixOf (c :: t) then some 0
      else (subIdx t pat).map (· + 1)

/-- JS `String.prototype.replace` with a string pattern: replace the
first occurrence only; if the pattern is absent the string is returned
unchanged.  (The `$`-substitution rules of JS replacement strings are
not modelled; no caller of `replace` in the module relies on them.) -/
def replaceFirstL (hay pat rep : List Char) : List Char :=
  match hay with
  | [] => if pat.isEmpty then rep else []
  | c :: t =>
      if pat.isPrefixOf (c :: t) then rep ++ (c :: t).drop pat.length
      else c :: replaceFirstL t pat rep

def jsToLower (s : String) : String := ⟨s.data.map Char.toLower⟩

def trimL (l : List Char) : List Char :=
  ((l.dropWhile jsIsWs).reverse.dropWhile jsIsWs).reverse

def jsTrim (s : String) : String := ⟨trimL s.data⟩

/-- JS `s.substring(0, n)`. -/
def jsTake (s : String) (n : Nat) : String := ⟨s.data.take n⟩

/-- JS `s.substring(i)` (negative arguments clamp to 0, hence `Nat`). -/
def jsDrop (s : String) (i : Nat) : String := ⟨s.data.drop i⟩

/-- JS `arr.slice(-n)`: the last `n` elements. -/
def lastN {α : Type} (l : List α) (n : Nat) : List α := l.drop (l.length - n)

/-- JS `x || d` for an optional string (empty string is falsy). -/
def jsOrStr (o : Option String) (d : String) : String :=
  match o with
  | some s => if s = "" then d else s
  | none => d

/-- JS `x || d` for an optional number (0 is falsy). -/
def jsOrNat (o : Option Nat) (d : Nat) : Nat :=
  match o with
  | some n => if n = 0 then d else n
  | none => d

/-- JS `x || null` for an optional string (empty string collapses to null). -/
def jsOrNull (o : Option String) : Option String :=
  match o with
  | some s => if s = "" then none else some s
  | none => none

/-- Truthiness of an optional string (`undefined`, `null`, `""` falsy). -/
def truthyStr (o : Option String) : Bool :=
  match o with
  | some s => s ≠ ""
  | none => false

/-- Truthiness of an optional number (`undefined`, `null`, `0` falsy). -/
def truthyNat (o : Option Nat) : Bool :=
  match o with
  | some n => n ≠ 0
  | none => false

/-! ## Data model -/

/-- A core memory block (`CoreMemory.define`, lines 121-135). -/
structure Block where
  label : String
  value : String
  limit : Nat
  readOnly : Bool
  description : String
  createdAt : Nat
  lastModified : Nat
  editCount : Nat
deriving DecidableEq

/-- A recall-memory message (`RecallMemory.add`, lines 278-299). -/
structure Msg where
  id : Nat
  role : String
  content : String
  timestamp : Nat
  page : String
  botName : Option String
  tokens : Nat
deriving DecidableEq

/-- A session summary record (`_autoSummarize` lines 376-383, `_load`
lines 728-735). -/
structure SummaryRec where
  sessionId : Option String
  timestamp : Nat
  messageCount : Nat
  summary : String
  keyTopics : List String
  page : String
deriving DecidableEq

/-- The in-memory state of the module: `_coreBlocks` (as an
insertion-ordered list, mirroring JS object key order), `_recall`, and
`_summaries` (lines 49-59). -/
structure MemState where
  coreBlocks : List Block
  messages : List Msg
  sessionId : Option String
  startedAt : Option Nat
  summaries : List SummaryRec
deriving DecidableEq

def initState : MemState :=
  { coreBlocks := [], messages := [], sessionId := none,
    startedAt := none, summaries := [] }

/-! ## Block store (CoreMemory) -/

/-- `_coreBlocks[label]` lookup (first — in fact unique — block whose
label matches). -/
def coreFind (bs : List Block) (label : String) : Option Block :=
  match bs with
  | [] => none
  | b :: t => if b.label = label then some b else coreFind t label

/-- In-place update of the (unique) block carrying `label`, preserving
JS object key order. -/
def updateFirst (bs : List Block) (label : String) (f : Block → Block) :
    List Block :=
  match bs with
  | [] => []
  | b :: t => if b.label = label then f b :: t else b :: updateFirst t label f

/-- `CoreMemory.get` (lines 142-145). -/
def coreGet (st : MemState) (label : String) : Option String :=
  (coreFind st.coreBlocks label).map Block.value

/-- Options object passed to `define`; `limit = 0` encodes a falsy
`opts.limit` (so the default applies, line 126). -/
structure DefineOpts where
  value : String := ""
  limit : Nat := 0
  readOnly : Bool := false
  description : String := ""
deriving DecidableEq

/-- `CoreMemory.define` (lines 121-135): unconditionally installs a
fresh block for `label`; an existing key keeps its position in the key
order, a new key is appended. -/
def defineBlock (st : MemState) (label : String) (opts : DefineOpts)
    (now : Nat) : MemState :=
  let b : Block :=
    { label := label
      value := opts.value
      limit := if opts.limit = 0 then DEFAULT_BLOCK_LIMIT else opts.limit
      readOnly := opts.readOnly
      description := opts.description
      createdAt := now
      lastModified := now
      editCount := 0 }
  { st with coreBlocks :=
      if (coreFind st.coreBlocks label).isSome then
        updateFirst st.coreBlocks label (fun _ => b)
      else st.coreBlocks ++ [b] }

/-- `CoreMemory.set` (lines 171-193): full replace, truncating
over-limit input to `limit` characters. -/
def setBlock (st : MemState) (label value : String) (now : Nat) :
    Bool × MemState :=
  match coreFind st.coreBlocks label with
  | none => (false, st)
  | some b =>
      if b.readOnly then (false, st)
      else
        let v := if value.length > b.limit then jsTake value b.limit else value
        let bs := updateFirst st.coreBlocks label (fun b0 =>
          { b0 with value := v, lastModified := now, editCount := b0.editCount + 1 })
        (true, { st with coreBlocks := bs })

/-- `CoreMemory.append` (lines 202-220): append, trimming overflow from
the front of the existing value so the newest content survives. -/
def appendBlock (st : MemState) (label content : String) (now : Nat) :
    Bool × MemState :=
  match coreFind st.coreBlocks label with
  | none => (false, st)
  | some b =>
      if b.readOnly then (false, st)
      else
        let newVal0 := b.value ++ content
        let newVal :=
          if newVal0.length > b.limit then
            jsDrop newVal0 (newVal0.length - b.limit)
          else newVal0
        let bs := updateFirst st.coreBlocks label (fun b0 =>
          { b0 with value := newVal, lastModified := now, editCount := b0.editCount + 1 })
        (true, { st with coreBlocks := bs })

/-- `CoreMemory.replace` (lines 230-247): first-occurrence find and
replace; returns `false` (leaving the state untouched) when the label
is undefined, the block is read-only, `oldStr` does not occur, or the
replaced value would exceed the limit. -/
def replaceBlock (st : MemState) (label oldStr newStr : String)
    (now : Nat) : Bool × MemState :=
  match coreFind st.coreBlocks label with
  | none => (false, st)
  | some b =>
      if b.readOnly then (false, st)
      else if (subIdx b.value.data oldStr.data).isNone then (false, st)
      else
        let newVal : String := ⟨replaceFirstL b.value.data oldStr.data newStr.data⟩
        if newVal.length > b.limit then (false, st)
        else
          let bs := updateFirst st.coreBlocks label (fun b0 =>
            { b0 with value := newVal, lastModified := now, editCount := b0.editCount + 1 })
          (true, { st with coreBlocks := bs })

/-! ## Compactor helpers -/

/-- `_estimateTokens` (lines 661-663): `Math.ceil(len / 4)`. -/
def estimateTokens (text : String) : Nat := (text.length + 3) / 4

/-- The fixed keyword → topic dictionary of `_extractTopics`
(lines 622-638), in source order. -/
def topicWords : List (String × String) :=
  [("deduction", "deductions"), ("deductions", "deductions"),
   ("write-off", "deductions"),
   ("income", "income"), ("revenue", "income"), ("payment", "income"),
   ("tax", "tax prep"), ("filing", "tax prep"), ("irs", "tax prep"),
   ("oregon", "tax prep"),
   ("bot", "bots"), ("bots", "bots"), ("fleet", "bots"), ("village", "bots"),
   ("client", "clients"), ("clients", "clients"),
   ("qbo", "QuickBooks"), ("quickbooks", "QuickBooks"),
   ("bank", "bank records"), ("statement", "bank records"),
   ("amazon", "Amazon orders"), ("order", "Amazon orders"),
   ("ledger", "ledger"), ("transaction", "transactions"),
   ("memory", "memory system"), ("recall", "memory system"),
   ("dashboard", "dashboard"), ("progress", "progress"),
   ("deadline", "deadline"), ("schedule", "schedule"),
   ("missing", "missing data"), ("gap", "missing data"),
   ("help", "support"), ("ticket", "support"),
   ("dns", "DNS/network"), ("network", "DNS/network")]

lemma length_dropWhile_le' (p : Char → Bool) (l : List Char) :
    (l.dropWhile p).length ≤ l.length := by
  induction l with
  | nil => simp [List.dropWhile]
  | cons c t ih =>
      by_cases h : p c
      · simp only [List.dropWhile, h]
        exact Nat.le_succ_of_le ih
      · simp [List.dropWhile, h]

/-- JS `split(/\s+/)`: split at maximal whitespace runs; a leading or
trailing run contributes an empty-string element, as in JS. -/
def splitWsAux (l : List Char) (acc : List Char) : List String :=
  match l with
  | [] => [⟨acc.reverse⟩]
  | c :: t =>
      if jsIsWs c then
        (⟨acc.reverse⟩ : String) :: splitWsAux (t.dropWhile jsIsWs) []
      else splitWsAux t (c :: acc)
termination_by l.length
decreasing_by
  · exact Nat.lt_succ_of_le (length_dropWhile_le' jsIsWs t)
  · exact Nat.lt_succ_self t.length

def splitWs (s : String) : List String := splitWsAux s.data []

/-- `found[topic] = (found[topic] || 0) + 1` over an object whose key
order is first-insertion order. -/
def bumpTopic (found : List (String × Nat)) (topic : String) :
    List (String × Nat) :=
  match found with
  | [] => [(topic, 1)]
  | (t, n) :: rest =>
      if t = topic then (t, n + 1) :: rest else (t, n) :: bumpTopic rest topic

/-- The topic-frequency accumulation loop of `_extractTopics`
(lines 640-649). -/
def collectTopics (messages : List Msg) : List (String × Nat) :=
  messages.foldl
    (fun acc m =>
      (splitWs (jsToLower m.content)).foldl
        (fun acc2 w =>
          match (topicWords.find? (fun p => p.1 = w)).map Prod.snd with
          | some topic => bumpTopic acc2 topic
          | none => acc2)
        acc)
    []

/-- Stable insertion (descending by count, earlier-seen first on ties),
mirroring the stable `Array.prototype.sort` with comparator
`found[b] - found[a]` over first-insertion key order (lines 652-654). -/
def insertByCount (p : String × Nat) : List (String × Nat) → List (String × Nat)
  | [] => [p]
  | q :: t => if q.2 ≥ p.2 then q :: insertByCount p t else p :: q :: t

def sortTopics (l : List (String × Nat)) : List (String × Nat) :=
  l.foldl (fun acc p => insertByCount p acc) []

/-- `_extractTopics` (lines 620-656): top 5 topics by frequency. -/
def extractTopics (messages : List Msg) : List String :=
  ((sortTopics (collectTopics messages)).map Prod.fst).take 5

/-- Truncation to 80 characters with an ellipsis (lines 604, 609). -/
def trunc80 (s : String) : String :=
  if s.length > 80 then jsTake s 80 ++ "..." else s

/-- `_buildSummary` (lines 588-615): extractive summary of a message
slice. -/
def buildSummary (messages : List Msg) : String :=
  if messages.length = 0 then "No messages." else
  let userMsgs := messages.filter (fun m => m.role = "user")
  let topics := extractTopics messages
  let parts0 := ["Session had " ++ toString messages.length ++ " messages (" ++
    toString userMsgs.length ++ " from user)."]
  let parts1 :=
    if topics.length > 0 then
      parts0 ++ ["Topics discussed: " ++ String.intercalate ", " topics ++ "."]
    else parts0
  let parts2 :=
    match userMsgs with
    | [] => parts1
    | u0 :: rest =>
        let p := parts1 ++ ["Started with: \"" ++ trunc80 u0.content ++ "\""]
        match rest.getLast? with
        | none => p
        | some ul => p ++ ["Ended with: \"" ++ trunc80 ul.content ++ "\""]
  String.intercalate " " parts2

/-! ## Turn Log (RecallMemory) -/

/-- The re-indexing loop of `_autoSummarize` (lines 391-393):
`toKeep[i].id = i`. -/
def reindexFrom (n : Nat) : List Msg → List Msg
  | [] => []
  | m :: t => { m with id := n } :: reindexFrom (n + 1) t

def reindex (l : List Msg) : List Msg := reindexFrom 0 l

/-- `_summaries.slice(-MAX_SUMMARIES)` applied when the archive exceeds
the cap (lines 386-388, 736-738). -/
def trimSummaries (l : List SummaryRec) : List SummaryRec :=
  if l.length > MAX_SUMMARIES then l.drop (l.length - MAX_SUMMARIES) else l

/-- The summary record pushed by `_autoSummarize` (lines 376-383). -/
def mkAutoRec (st : MemState) (toSummarize : List Msg) (now : Nat)
    (page : String) : SummaryRec :=
  { sessionId := st.sessionId
    timestamp := now
    messageCount := toSummarize.length
    summary := buildSummary toSummarize
    keyTopics := extractTopics toSummarize
    page := page }

/-- `RecallMemory._autoSummarize` (lines 364-400): fold the oldest
`total - SUMMARIZE_KEEP_RECENT` messages into one summary record, trim
the archive to `MAX_SUMMARIES`, and replace the buffer with the kept
messages re-indexed from 0. -/
def autoSummarize (st : MemState) (now : Nat) (page : String) : MemState :=
  let total := st.messages.length
  if total < SUMMARIZE_THRESHOLD then st
  else
    let toSummarize := st.messages.take (total - SUMMARIZE_KEEP_RECENT)
    let toKeep := st.messages.drop (total - SUMMARIZE_KEEP_RECENT)
    let summaries1 := st.summaries ++ [mkAutoRec st toSummarize now page]
    { st with messages := reindex toKeep, summaries := trimSummaries summaries1 }

/-- Optional metadata argument of `RecallMemory.add`. -/
structure AddMeta where
  page : Option String := none
  botName : Option String := none
  tokens : Option Nat := none
deriving DecidableEq

/-- `RecallMemory.add` (lines 278-299): build the message with
`id = _recall.messages.length`, push it, and synchronously
auto-summarize when the buffer length reaches `SUMMARIZE_THRESHOLD`.
`page` is the ambient `_config.page`. -/
def addMsg (st : MemState) (role content : String) (meta : AddMeta)
    (now : Nat) (page : String) : Msg × MemState :=
  let msg : Msg :=
    { id := st.messages.length
      role := role
      content := content
      timestamp := now
      page := jsOrStr meta.page page
      botName := jsOrNull meta.botName
      tokens := jsOrNat meta.tokens (estimateTokens content) }
  let st1 := { st with messages := st.messages ++ [msg] }
  let st2 :=
    if st1.messages.length ≥ SUMMARIZE_THRESHOLD then autoSummarize st1 now page
    else st1
  (msg, st2)

/-- `RecallMemory.recent` (lines 306-309): the last `count` messages
(`count || 20`). -/
def recentMsgs (st : MemState) (count : Nat) : List Msg :=
  lastN st.messages (jsOrNat (some count) 20)

/-- `RecallMemory.clear` (lines 405-409). -/
def clearRecall (st : MemState) : MemState := { st with messages := [] }

/-! ## Fact Extractor pattern matchers

Each JS regex used by `Learning.processUserMessage` (lines 809-853) is
realised as a leftmost-match scanner: positions are tried left to
right, and at each position the alternatives are tried in the order
they appear in the regex.  The greedy quantifiers of these particular
patterns never require backtracking into `\s+` on the (trimmed) inputs
the module feeds them, because each `\s+` is followed either by a
character class disjoint from whitespace or by `(.+)` whose first
character, after a maximal whitespace run inside a trimmed string, is
always available. -/

/-- An apostrophe (codepoint 39), used by the string literals of the
name and preference regexes. -/
def apos : String := ⟨[Char.ofNat 39]⟩

def imStr : String := "i" ++ apos ++ "m"

def dontLikeStr : String := "i don" ++ apos ++ "t like"

/-- Match a literal, returning the remaining suffix. -/
def litP (lit : List Char) (l : List Char) : Option (List Char) :=
  if lit.isPrefixOf l then some (l.drop lit.length) else none

/-- `\s+`: at least one whitespace character, consumed maximally. -/
def ws1 (l : List Char) : Option (List Char) :=
  match l with
  | [] => none
  | c :: t => if jsIsWs c then some (t.dropWhile jsIsWs) else none

/-- `(.+)`: a maximal nonempty run of non-line-terminator characters,
returned as the capture. -/
def dotPlus (l : List Char) : Option (List Char) :=
  let cap := l.takeWhile (fun c => !(jsIsNl c))
  if cap.isEmpty then none else some cap

/-- Try the pattern at every start position, leftmost first. -/
def scanPos {α : Type} (step : List Char → Option α) : List Char → Option α
  | [] => step []
  | c :: t =>
      match step (c :: t) with
      | some r => some r
      | none => scanPos step t

def isLowerAZ (c : Char) : Bool := 'a' ≤ c && c ≤ 'z'

def nameClass (c : Char) : Bool := isLowerAZ c || jsIsWs c

/-- `([a-z][a-z\s]{1,30})`: a lowercase letter followed by one to
thirty class characters, greedy (the inputs are pre-lowercased, making
the regex `i` flag inert). -/
def nameCap (l : List Char) : Option (List Char) :=
  match l with
  | [] => none
  | c :: t =>
      if isLowerAZ c then
        let r := (t.takeWhile nameClass).take 30
        if r.isEmpty then none else some (c :: r)
      else none

/-- `\s+(.+)` continuation shared by several rules. -/
def restCap (l : List Char) : Option (List Char) :=
  ws1 l >>= dotPlus

/-- Line 814: the name-declaration regex, alternatives in source
order (the two contracted alternatives are built via `apos`). -/
def nameStep (l : List Char) : Option (List Char) :=
  (litP "my name is".data l >>= fun r => ws1 r >>= nameCap) <|>
  (litP imStr.data l >>= fun r => ws1 r >>= nameCap) <|>
  (litP "i am".data l >>= fun r => ws1 r >>= nameCap) <|>
  (litP "call me".data l >>= fun r => ws1 r >>= nameCap)

def nameMatch (l : List Char) : Option (List Char) := scanPos nameStep l

/-- Line 824: `(?:remember that|note that|keep in mind(?:\s+that)?)\s+(.+)`.
The optional `(?:\s+that)?` is greedy: the variant with `that` is tried
first, falling back to the bare continuation. -/
def rememberStep (l : List Char) : Option (List Char) :=
  (litP "remember that".data l >>= restCap) <|>
  (litP "note that".data l >>= restCap) <|>
  (litP "keep in mind".data l >>= fun r =>
    (ws1 r >>= fun r1 => litP "that".data r1 >>= restCap) <|> restCap r)

def rememberMatch (l : List Char) : Option (List Char) := scanPos rememberStep l

/-- One preference alternative followed by `\s+(.+)`; returns the whole
match (`match[0]`) together with the capture. -/
def prefAlt (alt : List Char) (l : List Char) : Option (List Char × List Char) :=
  match litP alt l with
  | none => none
  | some r =>
      match ws1 r with
      | none => none
      | some r2 =>
          match dotPlus r2 with
          | none => none
          | some cap => some (l.take (l.length - (r2.length - cap.length)), cap)

/-- Line 832: the preference regex, alternatives in source order. -/
def prefStep (l : List Char) : Option (List Char × List Char) :=
  prefAlt "i prefer".data l <|> prefAlt "i like".data l <|>
  prefAlt dontLikeStr.data l <|> prefAlt "i hate".data l

def prefMatch (l : List Char) : Option (List Char × List Char) :=
  scanPos prefStep l

/-- Line 841: `(?:deadline is|deadline changed to|due (?:date|by))\s+(.+)`. -/
def deadlineStep (l : List Char) : Option (List Char) :=
  (litP "deadline is".data l >>= restCap) <|>
  (litP "deadline changed to".data l >>= restCap) <|>
  (litP "due ".data l >>= fun r =>
    (litP "date".data r >>= restCap) <|> (litP "by".data r >>= restCap))

def deadlineMatch (l : List Char) : Option (List Char) := scanPos deadlineStep l

/-- Line 843: `/Deadline: .+/g.exec(...)` — the whole first match of a
`Deadline:` line in the block value, or `none`. -/
def deadlineLineStep (l : List Char) : Option (List Char) :=
  litP "Deadline: ".data l >>= fun r =>
    (dotPlus r).map (fun cap => "Deadline: ".data ++ cap)

def execDeadlineLine (l : List Char) : Option (List Char) :=
  scanPos deadlineLineStep l

def isWordChar (c : Char) : Bool :=
  ('a' ≤ c && c ≤ 'z') || ('A' ≤ c && c ≤ 'Z') ||
  ('0' ≤ c && c ≤ '9') || c = '_'

/-- Line 818: `name.replace(/\b\w/g, c => c.toUpperCase())` —
capitalise the first word character of every word. -/
def ucWordsL : List Char → Bool → List Char
  | [], _ => []
  | c :: t, prevW =>
      (if isWordChar c && !prevW then c.toUpper else c) :: ucWordsL t (isWordChar c)

def ucWords (s : String) : String := ⟨ucWordsL s.data false⟩

/-! ## Fact Extractor (Learning) -/

/-- The `learned` result object of `processUserMessage`. -/
structure Learned where
  type : String
  value : String
deriving DecidableEq

/-- First `if` of `processUserMessage` (lines 814-821): the name rule. -/
def nameRule (st : MemState) (lower : String) (now : Nat) :
    Option Learned × MemState :=
  match nameMatch lower.data with
  | some cap =>
      let name := ucWords (jsTrim ⟨cap⟩)
      (some ⟨"name", name⟩,
       (appendBlock st "user_info" ("\nName: " ++ name) now).2)
  | none => (none, st)

/-- Second `if` (lines 824-829): the remember-that rule. -/
def rememberRule (prev : Option Learned × MemState) (lower : String)
    (now : Nat) : Option Learned × MemState :=
  match rememberMatch lower.data with
  | some cap =>
      let fact := jsTrim ⟨cap⟩
      (some ⟨"fact", fact⟩,
       (appendBlock prev.2 "user_info" ("\nNote: " ++ fact) now).2)
  | none => prev

/-- Third `if` (lines 832-838): the preference rule.  The stored text is
recovered from the original-case `message` via `indexOf` on the first
eight characters of the whole match, then truncated to 100 characters. -/
def prefRule (prev : Option Learned × MemState) (lower message : String)
    (now : Nat) : Option Learned × MemState :=
  match prefMatch lower.data with
  | some pc =>
      let idx := (subIdx (jsToLower message).data (pc.1.take 8)).getD 0
      let pref0 : String := jsDrop message idx
      let pref := if pref0.length > 100 then jsTake pref0 100 else pref0
      (some ⟨"preference", pref⟩,
       (appendBlock prev.2 "user_info" ("\nPreference: " ++ pref) now).2)
  | none => prev

/-- Fourth `if` (lines 841-845): the deadline rule.  The old text passed
to `replace` is the first `Deadline:` line of `project_facts`, or the
empty string when no such line exists (the optional-chain fallback of
line 843); a missing block
coerces to the string `"null"` under `exec`, as in JS. -/
def deadlineRule (prev : Option Learned × MemState) (lower : String)
    (now : Nat) : Option Learned × MemState :=
  match deadlineMatch lower.data with
  | some cap =>
      let d := jsTrim ⟨cap⟩
      let pfv := (coreGet prev.2 "project_facts").getD "null"
      let oldLine : String := ⟨(execDeadlineLine pfv.data).getD []⟩
      (some ⟨"deadline", d⟩,
       (replaceBlock prev.2 "project_facts" oldLine ("Deadline: " ++ d) now).2)
  | none => prev

/-- `Learning.processUserMessage` (lines 809-853).  Note that in the
source the four rules are four independent `if` statements — every rule
whose pattern matches performs its block update, and `learned` is
overwritten by each later match.  The inner-monologue "thought" and the
event emission on a match touch no modelled store and are omitted. -/
def processUserMessage (st : MemState) (message : String) (now : Nat) :
    Option Learned × MemState :=
  let lower := jsTrim (jsToLower message)
  deadlineRule (prefRule (rememberRule (nameRule st lower now) lower now)
    lower message now) lower now

/-! ## Default blocks -/

def personaDefault : String :=
  "I am a helpful assistant on the FPCS Tax Dashboard. I help Commander track tax preparation progress, find deductions, manage bots, and stay on deadline. I speak plainly, with personality and encouragement. I never reveal API keys or internal data to strangers."

def projectFactsDefault : String :=
  "Project: FPCS 2022 Tax Prep\nDeadline: April 10, 2026 (mail by certified)\nOregon 3-year statute: April 15, 2026\nQBO Gross Income: $17,097\nTotal Deductions: $42,024.74\nNet Loss: -$24,928\nMissing Income: $1,150 (Arlene Harris $870 + Kelley Haganauer $280)\nClean rows after dedup: 1,185\nDashboard: https://dashboard.justout.today"

/-- `_defineDefaults` (lines 759-796): define each standard block only
if its label is not already present (this call-site guard, not
`define` itself, provides the restore-before-default idempotence). -/
def defineDefaults (st : MemState) (now : Nat) : MemState :=
  let st1 :=
    if (coreFind st.coreBlocks "persona").isSome then st
    else defineBlock st "persona"
      ⟨personaDefault, 2000, false, "Bot personality and behavior rules"⟩ now
  let st2 :=
    if (coreFind st1.coreBlocks "user_info").isSome then st1
    else defineBlock st1 "user_info"
      ⟨"", 2000, false, "What we know about the current user"⟩ now
  let st3 :=
    if (coreFind st2.coreBlocks "task_state").isSome then st2
    else defineBlock st2 "task_state"
      ⟨"", 1500, false, "Current task context and what we are working on"⟩ now
  if (coreFind st3.coreBlocks "project_facts").isSome then st3
  else defineBlock st3 "project_facts"
    ⟨projectFactsDefault, 3000, false,
     "Key facts about the FPCS project that should always be available"⟩ now

/-! ## Date rendering

`getContextHeader` and `Summaries.toContext` render wall-clock values
via `Date`.  Epoch milliseconds are converted with the standard civil
calendar algorithm; the environment-dependent pieces (`toTimeString`
local time, `toLocaleDateString` locale) are modelled in a UTC, en-US
environment. -/

def pad2 (n : Nat) : String := if n < 10 then "0" ++ toString n else toString n

def pad3 (n : Nat) : String :=
  if n < 10 then "00" ++ toString n
  else if n < 100 then "0" ++ toString n
  else toString n

def pad4 (n : Nat) : String :=
  if n < 10 then "000" ++ toString n
  else if n < 100 then "00" ++ toString n
  else if n < 1000 then "0" ++ toString n
  else toString n

/-- Civil date (year, month, day) from days since 1970-01-01. -/
def civilFromDays (z : Nat) : Nat × Nat × Nat :=
  let z' := z + 719468
  let era := z' / 146097
  let doe := z' % 146097
  let yoe := (doe - doe / 1460 + doe / 36524 - doe / 146096) / 365
  let y := yoe + era * 400
  let doy := doe - (365 * yoe + yoe / 4 - yoe / 100)
  let mp := (5 * doy + 2) / 153
  let d := doy - (153 * mp + 2) / 5 + 1
  let m := if mp < 10 then mp + 3 else mp - 9
  (if m ≤ 2 then y + 1 else y, m, d)

/-- The date part of `toISOString` (everything before the T). -/
def isoDate (ms : Nat) : String :=
  let ymd := civilFromDays (ms / 86400000)
  pad4 ymd.1 ++ "-" ++ pad2 ymd.2.1 ++ "-" ++ pad2 ymd.2.2

/-- The HH:MM:SS part of `toTimeString` (its first blank-separated
field). -/
def timeHMS (ms : Nat) : String :=
  let rem := ms % 86400000
  pad2 (rem / 3600000) ++ ":" ++ pad2 (rem % 3600000 / 60000) ++ ":" ++
    pad2 (rem % 60000 / 1000)

/-- `new Date(ms).toISOString()`. -/
def isoFull (ms : Nat) : String :=
  isoDate ms ++ "T" ++ timeHMS ms ++ "." ++ pad3 (ms % 1000) ++ "Z"

/-- `new Date(ms).toLocaleDateString()` (en-US `M/D/YYYY`). -/
def localeDate (ms : Nat) : String :=
  let ymd := civilFromDays (ms / 86400000)
  toString ymd.2.1 ++ "/" ++ toString ymd.2.2 ++ "/" ++ toString ymd.1

/-! ## Summary archive rendering -/

/-- `Summaries.toContext` (lines 437-449). -/
def summariesToContext (summaries : List SummaryRec) (maxSummaries : Nat) :
    String :=
  let recent := lastN summaries (jsOrNat (some maxSummaries) 3)
  if recent.length = 0 then ""
  else
    String.intercalate "\n"
      ("[Previous conversation summaries]" ::
       recent.map (fun s =>
         "- " ++ localeDate s.timestamp ++ " (" ++ s.page ++ "): " ++ s.summary))

/-- Line 511: replace every newline of the value by a newline plus
four spaces. -/
def indentNl : List Char → List Char
  | [] => []
  | c :: t =>
      if c = '\n' then '\n' :: ' ' :: ' ' :: ' ' :: ' ' :: indentNl t
      else c :: indentNl t

/-! ## Context Assembler -/

/-- `getContextHeader` (lines 479-537), with the `new Date()` reading
threaded as `now`.  The source reads the three stores and builds a
string; it performs no store mutation, which the state-passing wrapper
`getContextHeaderS` below makes explicit. -/
def getContextHeader (st : MemState) (now : Nat) (page : String) : String :=
  let lines1 : List String :=
    ["<memory_metadata>",
     "  current_date: " ++ isoDate now,
     "  current_time: " ++ timeHMS now,
     "  page_context: " ++ page,
     "  recall_count: " ++ toString st.messages.length,
     "  summary_count: " ++ toString st.summaries.length,
     "  session_id: " ++ jsOrStr st.sessionId "none"]
  let labels := st.coreBlocks
  let lines2 :=
    if labels.length > 0 then
      lines1 ++ (("  core_blocks: " ++ toString labels.length) ::
        labels.map (fun b =>
          "    " ++ b.label ++ ": " ++ toString b.value.length ++ "/" ++
          toString b.limit ++ " chars (modified: " ++ isoFull b.lastModified ++ ")"))
    else lines1
  let lines3 := lines2 ++ ["</memory_metadata>", "", "<memory_blocks>"]
  let blockLines := labels.foldr
    (fun b acc =>
      ("  <block label=\"" ++ b.label ++ "\" chars=\"" ++
       toString b.value.length ++ "/" ++ toString b.limit ++ "\">") ::
      ((if b.value ≠ "" then [(⟨"    ".data ++ indentNl b.value.data⟩ : String)]
        else []) ++ ("  </block>" :: acc)))
    []
  let lines4 := lines3 ++ blockLines ++ ["</memory_blocks>"]
  let summaryCtx := summariesToContext st.summaries 2
  let lines5 := if summaryCtx ≠ "" then lines4 ++ ["", summaryCtx] else lines4
  let recent := lastN st.messages 6
  let lines6 :=
    if recent.length > 0 then
      lines5 ++ ("" :: "[Recent conversation]" ::
        recent.map (fun m =>
          (if m.role = "user" then "Commander" else jsOrStr m.botName "Bot") ++
          ": " ++ m.content))
    else lines5
  String.intercalate "\n" lines6

/-- The call surface of `getContextHeader` as the callers see it: the
stores go in, a payload and the (unchanged) stores come out. -/
def getContextHeaderS (st : MemState) (now : Nat) (page : String) :
    String × MemState :=
  (getContextHeader st now page, st)

/-! ## Session load (`_load`) -/

/-- The serialized recall snapshot stored per session
(`Storage.set` under the key recall_ + sessionId, lines 681-685); a
missing
`messages` field models a malformed snapshot, as `_load` guards it. -/
structure StoredRecall where
  messages : Option (List Msg)
  startedAt : Option Nat
deriving DecidableEq

/-- The `localStorage` snapshot `_load` reads. -/
structure Stored where
  coreBlocks : Option (List Block)
  summaries : Option (List SummaryRec)
  lastSessionId : Option String
  lastSessionTime : Option Nat
  recallBySession : List (String × StoredRecall)
deriving DecidableEq

def lookupRecall (stored : Stored) (sid : String) : Option StoredRecall :=
  (stored.recallBySession.find? (fun p => p.1 = sid)).map Prod.snd

/-- The summary record pushed when an expired session with more than
two messages is folded (lines 728-735). -/
def mkExpiryRec (sid : String) (ms : List Msg) (now : Nat) (page : String) :
    SummaryRec :=
  { sessionId := some sid
    timestamp := now
    messageCount := ms.length
    summary := buildSummary ms
    keyTopics := extractTopics ms
    page := page }

/-- `_load` (lines 695-750).  `now` is the `Date.now()` reading and
`freshId` the `_generateSessionId()` output for the run.  If the stored
session id and time are truthy and the session is younger than the
30-minute timeout, the session is resumed with its stored messages;
otherwise a new session starts with an empty buffer, first folding the
old session into a summary when it had more than 2 messages. -/
def loadState (stored : Stored) (now : Nat) (freshId : String)
    (page : String) : MemState :=
  let core := stored.coreBlocks.getD []
  let summaries0 := stored.summaries.getD []
  let base : MemState :=
    { coreBlocks := core, messages := [], sessionId := none,
      startedAt := none, summaries := summaries0 }
  if truthyStr stored.lastSessionId ∧ truthyNat stored.lastSessionTime ∧
      now - (stored.lastSessionTime.getD 0) < INACTIVITY_TIMEOUT then
    let sid := (stored.lastSessionId.getD "")
    match lookupRecall stored sid with
    | some saved =>
        { base with sessionId := some sid,
                    messages := saved.messages.getD [],
                    startedAt := saved.startedAt }
    | none => { base with sessionId := some sid }
  else
    let summaries1 :=
      match stored.lastSessionId with
      | some sid =>
          if sid ≠ "" then
            match lookupRecall stored sid with
            | some oldR =>
                match oldR.messages with
                | some ms =>
                    if ms.length > 2 then
                      trimSummaries (summaries0 ++ [mkExpiryRec sid ms now page])
                    else summaries0
                | none => summaries0
            | none => summaries0
          else summaries0
      | none => summaries0
    { base with sessionId := some freshId, messages := [],
                startedAt := some now, summaries := summaries1 }

/-! ## Helper lemmas -/

lemma coreFind_updateFirst_same (bs : List Block) (label : String)
    (f : Block → Block) (hf : ∀ b, (f b).label = b.label) :
    coreFind (updateFirst bs label f) label = (coreFind bs label).map f := by
  induction bs with
  | nil => rfl
  | cons b t ih =>
      by_cases hb : b.label = label
      · simp [updateFirst, coreFind, hb, hf b]
      · simp [updateFirst, coreFind, hb, ih]

lemma coreFind_updateFirst_ne (bs : List Block) (label label' : String)
    (f : Block → Block) (hf : ∀ b, (f b).label = b.label)
    (h : label' ≠ label) :
    coreFind (updateFirst bs label f) label' = coreFind bs label' := by
  induction bs with
  | nil => rfl
  | cons b t ih =>
      by_cases hb : b.label = label
      · have hfb : (f b).label = b.label := hf b
        simp [updateFirst, coreFind, hb, hfb, Ne.symm h]
      · by_cases hb' : b.label = label'
        · simp [updateFirst, coreFind, hb, hb', h]
        · simp [updateFirst, coreFind, hb, hb', ih]

lemma mem_updateFirst_find {bs : List Block} {label : String}
    {f : Block → Block} {b b' : Block} (hb : coreFind bs label = some b)
    (h : b' ∈ updateFirst bs label f) : b' ∈ bs ∨ b' = f b := by
  induction bs with
  | nil => simp [updateFirst] at h
  | cons b0 t ih =>
      by_cases h0 : b0.label = label
      · simp [coreFind, h0] at hb
        simp [updateFirst, h0] at h
        rcases h with h | h
        · exact Or.inr (hb ▸ h)
        · exact Or.inl (List.mem_cons_of_mem _ h)
      · simp [coreFind, h0] at hb
        simp [updateFirst, h0] at h
        rcases h with h | h
        · exact Or.inl (by simp [h])
        · rcases ih hb h with h' | h'
          · exact Or.inl (List.mem_cons_of_mem _ h')
          · exact Or.inr h'

lemma appendBlock_find_same (st : MemState) (l c : String) (now : Nat)
    (b : Block) (hb : coreFind st.coreBlocks l = some b)
    (hro : b.readOnly = false) :
    ∃ b', coreFind ((appendBlock st l c now).2).coreBlocks l = some b' ∧
      b'.editCount = b.editCount + 1 ∧ b'.readOnly = false := by
  simp only [appendBlock, hb, hro, Bool.false_eq_true, if_false]
  rw [coreFind_updateFirst_same st.coreBlocks l
    (fun b0 =>
      { b0 with
        value := if (b.value ++ c).length > b.limit then
            jsDrop (b.value ++ c) ((b.value ++ c).length - b.limit)
          else b.value ++ c,
        lastModified := now, editCount := b0.editCount + 1 })
    (fun b0 => rfl), hb]
  exact ⟨_, rfl, rfl, hro⟩

lemma appendBlock_find_other (st : MemState) (l c : String) (now : Nat)
    (l' : String) (h : l' ≠ l) :
    coreFind ((appendBlock st l c now).2).coreBlocks l' =
      coreFind st.coreBlocks l' := by
  unfold appendBlock
  cases hf : coreFind st.coreBlocks l with
  | none => rfl
  | some b =>
      by_cases hro : b.readOnly
      · simp [hro]
      · simp only [hro, Bool.false_eq_true, if_false]
        exact coreFind_updateFirst_ne st.coreBlocks l l' _ (fun b0 => rfl) h

/-- Invariant of §8 of the spec: the value of every block fits within
its limit. -/
def blocksOk (st : MemState) : Prop :=
  ∀ b ∈ st.coreBlocks, b.value.length ≤ b.limit

instance (st : MemState) : Decidable (blocksOk st) := by
  unfold blocksOk; infer_instance

/-- Sequence ids equal buffer positions (the invariant of claim C10). -/
def idsOk (msgs : List Msg) : Prop :=
  msgs.map Msg.id = List.range msgs.length

instance (msgs : List Msg) : Decidable (idsOk msgs) := by
  unfold idsOk; infer_instance

lemma reindexFrom_map_id (l : List Msg) (n : Nat) :
    (reindexFrom n l).map Msg.id = List.range' n l.length := by
  induction l generalizing n with
  | nil => rfl
  | cons m t ih => simp [reindexFrom, List.range', ih]

lemma reindexFrom_length (l : List Msg) (n : Nat) :
    (reindexFrom n l).length = l.length := by
  induction l generalizing n with
  | nil => rfl
  | cons m t ih => simp [reindexFrom, ih]

lemma idsOk_reindex (l : List Msg) : idsOk (reindex l) := by
  unfold idsOk reindex
  rw [reindexFrom_map_id, reindexFrom_length, List.range_eq_range']

lemma mkString_length (l : List Char) : (⟨l⟩ : String).length = l.length := rfl

lemma jsTake_length (s : String) (n : Nat) :
    (jsTake s n).length = min n s.length := by
  show (s.data.take n).length = min n s.data.length
  simp [List.length_take]

lemma jsDrop_length (s : String) (k : Nat) :
    (jsDrop s k).length = s.length - k := by
  show (s.data.drop k).length = s.data.length - k
  simp [List.length_drop]

/-! ## Claim C8 — append trimming (confirmed) -/

def c8st0 : MemState := defineBlock initState "t" ⟨"", 10, false, ""⟩ 0
def c8st1 : MemState := (setBlock c8st0 "t" "1234567890" 1).2
def c8st2 : MemState := (appendBlock c8st1 "t" "ABC" 2).2

/-- C8: with a block of limit 10 holding `"1234567890"`, appending
`"ABC"` succeeds and drops characters only from the front, yielding
exactly `"4567890ABC"` — length 10, ending in the appended fragment and
beginning with the surviving suffix `"4567890"` of the original
value. -/
theorem append_trims_front :
    (appendBlock c8st1 "t" "ABC" 2).1 = true ∧
    coreGet c8st2 "t" = some "4567890ABC" ∧
    (coreGet c8st2 "t").map String.length = some 10 := by decide

/-! ## Claim C4 — `define` is not idempotent (corrected) -/

def c4st0 : MemState := defineBlock initState "b" ⟨"A", 5, false, "first"⟩ 0
def c4st1 : MemState := defineBlock c4st0 "b" ⟨"B", 7, false, "second"⟩ 1

/-- C4 counterexample: re-defining an existing label with existing data
is not a no-op — `define` unconditionally overwrites the block, so the
value, limit, description and created_at all change. -/
theorem define_overwrites_cex :
    coreGet c4st0 "b" = some "A" ∧
    coreGet c4st1 "b" = some "B" ∧
    (coreFind c4st1.coreBlocks "b").map Block.limit = some 7 ∧
    (coreFind c4st1.coreBlocks "b").map Block.createdAt = some 1 := by decide

/-- C4 amended: `define` itself unconditionally replaces the block; the
no-op-on-existing-data behaviour lives in the caller `_defineDefaults`,
which defines each default label only when it is absent, so running
`_defineDefaults` over a state that already has all four default labels
leaves the store untouched. -/
theorem defineDefaults_noop_when_present (st : MemState) (now : Nat)
    (h1 : (coreFind st.coreBlocks "persona").isSome = true)
    (h2 : (coreFind st.coreBlocks "user_info").isSome = true)
    (h3 : (coreFind st.coreBlocks "task_state").isSome = true)
    (h4 : (coreFind st.coreBlocks "project_facts").isSome = true) :
    defineDefaults st now = st := by
  simp [defineDefaults, h1, h2, h3, h4]

/-- C4 witness: the default store itself satisfies the presence
hypotheses, and re-running `_defineDefaults` on it is a no-op. -/
theorem defineDefaults_noop_when_present_witness :
    (coreFind (defineDefaults initState 0).coreBlocks "persona").isSome = true ∧
    (coreFind (defineDefaults initState 0).coreBlocks "user_info").isSome = true ∧
    (coreFind (defineDefaults initState 0).coreBlocks "task_state").isSome = true ∧
    (coreFind (defineDefaults initState 0).coreBlocks "project_facts").isSome = true ∧
    defineDefaults (defineDefaults initState 0) 1 = defineDefaults initState 0 :=
  ⟨by decide, by decide, by decide, by decide,
   defineDefaults_noop_when_present (defineDefaults initState 0) 1
     (by decide) (by decide) (by decide) (by decide)⟩

/-! ## Claim C5 — the length invariant (corrected) -/

def c5st : MemState := defineBlock initState "b" ⟨"12345", 3, false, ""⟩ 0

/-- C5 counterexample: `define` does not truncate its initial value, so
a block can start over-limit, and a failing `replace` (here a no-match)
completes while leaving the over-limit value in place: after the
operation the invariant `len(value) <= limit` does not hold. -/
theorem limit_invariant_violation_cex :
    (replaceBlock c5st "b" "x" "y" 0).1 = false ∧
    (coreFind (replaceBlock c5st "b" "x" "y" 0).2.coreBlocks "b").map
      (fun b => (b.value, b.limit)) = some ("12345", 3) ∧
    ¬ blocksOk (replaceBlock c5st "b" "x" "y" 0).2 := by
  refine ⟨by decide, by decide, ?_⟩
  unfold blocksOk
  decide

/-- C5 amended: provided the value of every block is within its limit
beforehand (which `define` does not itself enforce), any `set`, `append`
or `replace` preserves `len(value) <= limit`: `set` truncates over-limit
input, `append` trims from the front, and `replace` refuses over-limit
results. -/
theorem limit_invariant_preserved (st : MemState) (l v c o n' : String)
    (now : Nat) (h : blocksOk st) :
    blocksOk (setBlock st l v now).2 ∧ blocksOk (appendBlock st l c now).2 ∧
    blocksOk (replaceBlock st l o n' now).2 := by
  refine ⟨?_, ?_, ?_⟩
  · unfold setBlock
    cases hf : coreFind st.coreBlocks l with
    | none => exact h
    | some b =>
        by_cases hro : b.readOnly
        · simp only [hro, if_true]; exact h
        · simp only [hro, Bool.false_eq_true, if_false]
          intro b' hb'
          rcases mem_updateFirst_find hf hb' with hmem | rfl
          · exact h b' hmem
          · by_cases hv : v.length > b.limit
            · simp only [hv, if_true]
              show (jsTake v b.limit).length ≤ b.limit
              rw [jsTake_length]
              exact Nat.min_le_left ..
            · simp only [hv, if_false]
              show v.length ≤ b.limit
              omega
  · unfold appendBlock
    cases hf : coreFind st.coreBlocks l with
    | none => exact h
    | some b =>
        by_cases hro : b.readOnly
        · simp only [hro, if_true]; exact h
        · simp only [hro, Bool.false_eq_true, if_false]
          intro b' hb'
          rcases mem_updateFirst_find hf hb' with hmem | rfl
          · exact h b' hmem
          · by_cases hv : (b.value ++ c).length > b.limit
            · simp only [hv, if_true]
              show (jsDrop (b.value ++ c) ((b.value ++ c).length - b.limit)).length ≤ b.limit
              rw [jsDrop_length]
              omega
            · simp only [hv, if_false]
              show (b.value ++ c).length ≤ b.limit
              omega
  · unfold replaceBlock
    cases hf : coreFind st.coreBlocks l with
    | none => exact h
    | some b =>
        by_cases hro : b.readOnly
        · simp only [hro, if_true]; exact h
        · simp only [hro, Bool.false_eq_true, if_false]
          by_cases hn : (subIdx b.value.data o.data).isNone
          · simp only [hn, if_true]; exact h
          · simp only [hn, Bool.false_eq_true, if_false]
            by_cases hv : (⟨replaceFirstL b.value.data o.data n'.data⟩ : String).length > b.limit
            · simp only [hv, if_true]; exact h
            · simp only [hv, if_false]
              intro b' hb'
              rcases mem_updateFirst_find hf hb' with hmem | rfl
              · exact h b' hmem
              · show (⟨replaceFirstL b.value.data o.data n'.data⟩ : String).length ≤ b.limit
                omega

set_option maxRecDepth 4096 in
/-- C5 witness: the default store satisfies `blocksOk`, and the three
operations preserve it there. -/
theorem limit_invariant_preserved_witness :
    blocksOk (defineDefaults initState 0) ∧
    (blocksOk (setBlock (defineDefaults initState 0) "user_info" "Name: X" 1).2 ∧
     blocksOk (appendBlock (defineDefaults initState 0) "user_info" "Y" 1).2 ∧
     blocksOk (replaceBlock (defineDefaults initState 0) "task_state" "a" "b" 1).2) :=
  ⟨by unfold blocksOk; decide,
   limit_invariant_preserved (defineDefaults initState 0) "user_info" "Name: X"
     "Y" "a" "b" 1 (by unfold blocksOk; decide)⟩

/-! ## Claim C7 — `replace` failure modes (corrected) -/

def c7st : MemState := defineBlock initState "b" ⟨"abc", 3, false, ""⟩ 0

/-- C7 counterexample: `replace` returns only a boolean, so a no-match
call (pattern `"xyz"` absent from `"abc"`) and a refused over-limit call
(`"abc" -> "abcdef"` of length 6 against limit 3) produce the identical
result `false`: the return value does not distinguish `no_match` from
`refused` as the claim states. -/
theorem replace_result_indistinct_cex :
    subIdx ("abc" : String).data ("xyz" : String).data = none ∧
    (subIdx ("abc" : String).data ("abc" : String).data).isSome = true ∧
    (⟨replaceFirstL ("abc" : String).data ("abc" : String).data
      ("abcdef" : String).data⟩ : String).length > 3 ∧
    (replaceBlock c7st "b" "xyz" "q" 0).1 = (replaceBlock c7st "b" "abc" "abcdef" 0).1 ∧
    (replaceBlock c7st "b" "xyz" "q" 0).1 = false := by decide

/-- C7 amended: on a defined writable block, `replace` reports failure
as the boolean `false` both when `old_text` is not a literal substring
of the value (no-match) and when the replaced result would exceed the
limit (refusal); in both cases the entire state — in particular the
value and `edit_count` — is left unchanged, and no truncation occurs. -/
theorem replace_failure_noop (st : MemState) (l o n' : String) (now : Nat)
    (b : Block) (hb : coreFind st.coreBlocks l = some b)
    (hro : b.readOnly = false) :
    (subIdx b.value.data o.data = none → replaceBlock st l o n' now = (false, st)) ∧
    ((⟨replaceFirstL b.value.data o.data n'.data⟩ : String).length > b.limit →
      replaceBlock st l o n' now = (false, st)) := by
  constructor
  · intro hnone
    simp [replaceBlock, hb, hro, hnone]
  · intro hover
    by_cases hn : (subIdx b.value.data o.data).isNone
    · simp [replaceBlock, hb, hro, hn]
    · simp only [replaceBlock, hb, hro, hn, Bool.false_eq_true, if_false]
      rw [if_pos hover]

/-- C7 witness: both failure modes instantiated on a concrete store. -/
theorem replace_failure_noop_witness :
    replaceBlock c7st "b" "xyz" "q" 0 = (false, c7st) ∧
    replaceBlock c7st "b" "abc" "abcdef" 0 = (false, c7st) :=
  ⟨(replace_failure_noop c7st "b" "xyz" "q" 0
      { label := "b", value := "abc", limit := 3, readOnly := false,
        description := "", createdAt := 0, lastModified := 0, editCount := 0 }
      (by decide) rfl).1 (by decide),
   (replace_failure_noop c7st "b" "abc" "abcdef" 0
      { label := "b", value := "abc", limit := 3, readOnly := false,
        description := "", createdAt := 0, lastModified := 0, editCount := 0 }
      (by decide) rfl).2 (by decide)⟩

/-! ## Claim C1 — eviction at the threshold (confirmed) -/

lemma addMsg_snd (st : MemState) (role content : String) (meta : AddMeta)
    (now : Nat) (page : String) :
    (addMsg st role content meta now page).2 =
      (if st.messages.length + 1 ≥ SUMMARIZE_THRESHOLD then
        autoSummarize
          { st with messages :=
              st.messages ++ [(addMsg st role content meta now page).1] } now page
      else
        { st with messages :=
            st.messages ++ [(addMsg st role content meta now page).1] }) := by
  unfold addMsg
  simp

lemma autoSummarize_at_threshold (st1 : MemState) (now : Nat) (page : String)
    (h : st1.messages.length = SUMMARIZE_THRESHOLD) :
    autoSummarize st1 now page =
      { st1 with
        messages := reindex (st1.messages.drop
          (SUMMARIZE_THRESHOLD - SUMMARIZE_KEEP_RECENT)),
        summaries := trimSummaries (st1.summaries ++
          [mkAutoRec st1 (st1.messages.take
            (SUMMARIZE_THRESHOLD - SUMMARIZE_KEEP_RECENT)) now page]) } := by
  unfold autoSummarize
  simp [h]

/-- C1: when an append brings the Turn Log to exactly
`SUMMARIZE_THRESHOLD` (80) messages, `add` synchronously compacts
before returning: the resulting buffer is exactly the newest
`SUMMARIZE_KEEP_RECENT` (24) messages (re-indexed), the archive gains
exactly one new record built by `_buildSummary`/`_extractTopics` from
the evicted prefix only, and the `messageCount` of that record
(`turns_folded`) is `SUMMARIZE_THRESHOLD - SUMMARIZE_KEEP_RECENT`
(56). -/
theorem eviction_compacts_at_threshold (st : MemState) (role content : String)
    (meta : AddMeta) (now : Nat) (page : String)
    (h : st.messages.length + 1 = SUMMARIZE_THRESHOLD) :
    (addMsg st role content meta now page).2.messages.length =
      SUMMARIZE_KEEP_RECENT ∧
    (addMsg st role content meta now page).2.messages =
      reindex ((st.messages ++ [(addMsg st role content meta now page).1]).drop
        (SUMMARIZE_THRESHOLD - SUMMARIZE_KEEP_RECENT)) ∧
    (addMsg st role content meta now page).2.summaries =
      trimSummaries (st.summaries ++
        [mkAutoRec st
          ((st.messages ++ [(addMsg st role content meta now page).1]).take
            (SUMMARIZE_THRESHOLD - SUMMARIZE_KEEP_RECENT)) now page]) ∧
    (mkAutoRec st
        ((st.messages ++ [(addMsg st role content meta now page).1]).take
          (SUMMARIZE_THRESHOLD - SUMMARIZE_KEEP_RECENT)) now page).messageCount =
      SUMMARIZE_THRESHOLD - SUMMARIZE_KEEP_RECENT := by
  have hbuflen :
      (st.messages ++ [(addMsg st role content meta now page).1]).length =
        SUMMARIZE_THRESHOLD := by
    simpa using h
  have hsnd := addMsg_snd st role content meta now page
  rw [if_pos (le_of_eq h.symm)] at hsnd
  rw [hsnd, autoSummarize_at_threshold _ now page (by simpa using h)]
  refine ⟨?_, by simp, by simp [mkAutoRec], ?_⟩
  · simp only
    rw [reindex, reindexFrom_length, List.length_drop, hbuflen]
    decide
  · simp only [mkAutoRec, List.length_take, hbuflen]
    simp [SUMMARIZE_THRESHOLD, SUMMARIZE_KEEP_RECENT]

def msgs79 : List Msg :=
  (List.range 79).map (fun i =>
    { id := i, role := "user", content := "m", timestamp := 0, page := "p",
      botName := none, tokens := 1 })

def st79 : MemState := { initState with messages := msgs79 }

/-- C1 witness: a concrete 79-message buffer compacted by the 80th
append. -/
theorem eviction_compacts_at_threshold_witness :
    st79.messages.length + 1 = SUMMARIZE_THRESHOLD ∧
    ((addMsg st79 "user" "hello" {} 5 "p").2.messages.length =
        SUMMARIZE_KEEP_RECENT ∧
     (addMsg st79 "user" "hello" {} 5 "p").2.messages =
       reindex ((st79.messages ++ [(addMsg st79 "user" "hello" {} 5 "p").1]).drop
         (SUMMARIZE_THRESHOLD - SUMMARIZE_KEEP_RECENT)) ∧
     (addMsg st79 "user" "hello" {} 5 "p").2.summaries =
       trimSummaries (st79.summaries ++
         [mkAutoRec st79
           ((st79.messages ++ [(addMsg st79 "user" "hello" {} 5 "p").1]).take
             (SUMMARIZE_THRESHOLD - SUMMARIZE_KEEP_RECENT)) 5 "p"]) ∧
     (mkAutoRec st79
         ((st79.messages ++ [(addMsg st79 "user" "hello" {} 5 "p").1]).take
           (SUMMARIZE_THRESHOLD - SUMMARIZE_KEEP_RECENT)) 5 "p").messageCount =
       SUMMARIZE_THRESHOLD - SUMMARIZE_KEEP_RECENT) :=
  ⟨by decide, eviction_compacts_at_threshold st79 "user" "hello" {} 5 "p" (by decide)⟩

/-! ## Claim C10 — ids equal positions (confirmed) -/

lemma idsOk_autoSummarize (st : MemState) (now : Nat) (page : String)
    (h : idsOk st.messages) : idsOk (autoSummarize st now page).messages := by
  unfold autoSummarize
  by_cases hlt : st.messages.length < SUMMARIZE_THRESHOLD
  · simpa [hlt] using h
  · simpa [hlt] using idsOk_reindex
      (st.messages.drop (st.messages.length - SUMMARIZE_KEEP_RECENT))

/-- C10: each `add` assigns `id = length` so ids stay equal to
positions; compaction re-indexes the kept suffix from 0; `clear`
empties the buffer — so every Turn Log operation preserves the
invariant that in-buffer ids are exactly `0..count-1` in order. -/
theorem ids_contiguous_invariant (st : MemState) (role content : String)
    (meta : AddMeta) (now : Nat) (page : String) (h : idsOk st.messages) :
    idsOk ((addMsg st role content meta now page).2).messages ∧
    idsOk ((autoSummarize st now page).messages) ∧
    idsOk ((clearRecall st).messages) := by
  have hmsgid : (addMsg st role content meta now page).1.id =
      st.messages.length := rfl
  have hbuf : idsOk (st.messages ++ [(addMsg st role content meta now page).1]) := by
    unfold idsOk at h ⊢
    simp only [List.map_append, List.length_append, List.map_cons, List.map_nil,
      List.length_cons, List.length_nil, hmsgid]
    rw [h, Nat.zero_add, List.range_succ]
  refine ⟨?_, idsOk_autoSummarize st now page h, by unfold idsOk clearRecall; simp⟩
  rw [addMsg_snd]
  by_cases hge : st.messages.length + 1 ≥ SUMMARIZE_THRESHOLD
  · rw [if_pos hge]
    exact idsOk_autoSummarize _ now page (by simpa using hbuf)
  · rw [if_neg hge]
    simpa using hbuf

/-- C10 witness: the invariant holds for the empty buffer and is
carried through one `add`, one (vacuous) compaction and one `clear`. -/
theorem ids_contiguous_invariant_witness :
    idsOk initState.messages ∧
    (idsOk ((addMsg initState "user" "hi" {} 0 "p").2).messages ∧
     idsOk ((autoSummarize initState 0 "p").messages) ∧
     idsOk ((clearRecall initState).messages)) :=
  ⟨by unfold idsOk; decide,
   ids_contiguous_invariant initState "user" "hi" {} 0 "p" (by unfold idsOk; decide)⟩

/-! ## Claim C2 — context assembly (corrected) -/

/-- C2 counterexample: the assembled header embeds the `Date.now()`
reading (`current_date`/`current_time` lines), so two calls with no
intervening store mutation but different clock readings are not
byte-identical — here `initState` at 1000 ms vs 2000 ms after the
epoch — even though neither call mutates the stores. -/
theorem contextHeader_time_dependent_cex :
    getContextHeader initState 1000 "p" ≠ getContextHeader initState 2000 "p" ∧
    (getContextHeaderS initState 1000 "p").2 = initState ∧
    (getContextHeaderS initState 2000 "p").2 = initState :=
  ⟨by decide, rfl, rfl⟩

/-- C2 amended: `getContextHeader` never mutates the Block Store, Turn
Log or Summary Archive, and two successive calls with no intervening
mutation return byte-identical output provided the clock reading is the
same at both calls (the payload embeds the current date and time, so
distinct clock readings can differ). -/
theorem contextHeader_pure_same_clock (st : MemState) (now : Nat)
    (page : String) :
    (getContextHeaderS st now page).2 = st ∧
    (getContextHeaderS ((getContextHeaderS st now page).2) now page).1 =
      (getContextHeaderS st now page).1 :=
  ⟨rfl, rfl⟩

/-! ## Claim C3 — rule layering in the Fact Extractor (corrected) -/

def c3st : MemState := defineDefaults initState 0

set_option maxRecDepth 16384 in
/-- C3 counterexample: on `"my name is bob remember that cats purr"`
both the name pattern and the remember-that pattern match, and BOTH
rules perform their update — `user_info` receives the `Name:` line from
the first rule and then the `Note:` line from the second — so a later
matching rule is not suppressed by an earlier one, and the reported
fact comes from the last matching rule. -/
theorem learning_rules_not_first_match_cex :
    (nameMatch (jsTrim (jsToLower "my name is bob remember that cats purr")).data).isSome
      = true ∧
    (rememberMatch (jsTrim (jsToLower "my name is bob remember that cats purr")).data).isSome
      = true ∧
    coreGet ((processUserMessage c3st "my name is bob remember that cats purr" 5).2)
      "user_info" = some "\nName: Bob Remember That Cats Purr\nNote: cats purr" ∧
    (processUserMessage c3st "my name is bob remember that cats purr" 5).1 =
      some ⟨"fact", "cats purr"⟩ := by decide

/-- C3 amended: the rules are tried in order, but each rule whose
pattern matches performs its update (the rules are layered, not
first-match-wins): when both the name rule and the remember rule match
(and the preference and deadline rules do not), `user_info` is edited
twice — its `edit_count` grows by 2 — and the reported learned fact is
that of the last matching rule. -/
theorem learning_rules_layered (st : MemState) (msg : String) (now : Nat)
    (b : Block) (hb : coreFind st.coreBlocks "user_info" = some b)
    (hro : b.readOnly = false)
    (hname : (nameMatch (jsTrim (jsToLower msg)).data).isSome = true)
    (hrem : (rememberMatch (jsTrim (jsToLower msg)).data).isSome = true)
    (hpref : prefMatch (jsTrim (jsToLower msg)).data = none)
    (hdl : deadlineMatch (jsTrim (jsToLower msg)).data = none) :
    (∃ b', coreFind ((processUserMessage st msg now).2).coreBlocks "user_info" =
        some b' ∧ b'.editCount = b.editCount + 2) ∧
    (∃ f, (processUserMessage st msg now).1 = some ⟨"fact", f⟩) := by
  unfold processUserMessage deadlineRule prefRule rememberRule nameRule
  simp only [hdl, hpref]
  cases hN : nameMatch (jsTrim (jsToLower msg)).data with
  | none => rw [hN] at hname; simp at hname
  | some capN =>
      cases hR : rememberMatch (jsTrim (jsToLower msg)).data with
      | none => rw [hR] at hrem; simp at hrem
      | some capR =>
          simp only [hN, hR]
          obtain ⟨b1, hb1, he1, hro1⟩ := appendBlock_find_same st "user_info"
            ("\nName: " ++ ucWords (jsTrim ⟨capN⟩)) now b hb hro
          obtain ⟨b2, hb2, he2, hro2⟩ := appendBlock_find_same _ "user_info"
            ("\nNote: " ++ jsTrim ⟨capR⟩) now b1 hb1 hro1
          refine ⟨⟨b2, ?_, by omega⟩, ⟨jsTrim ⟨capR⟩, rfl⟩⟩
          exact hb2

set_option maxRecDepth 16384 in
/-- C3 witness: the layered-update theorem instantiated on the default
store and the two-pattern message. -/
theorem learning_rules_layered_witness :
    (∃ b', coreFind ((processUserMessage c3st
        "my name is bob remember that cats purr" 5).2).coreBlocks "user_info" =
        some b' ∧ b'.editCount = 0 + 2) ∧
    (∃ f, (processUserMessage c3st "my name is bob remember that cats purr" 5).1 =
      some ⟨"fact", f⟩) :=
  learning_rules_layered c3st "my name is bob remember that cats purr" 5
    { label := "user_info", value := "", limit := 2000, readOnly := false,
      description := "What we know about the current user",
      createdAt := 0, lastModified := 0, editCount := 0 }
    (by decide) rfl (by decide) (by decide) (by decide) (by decide)

/-! ## Claim C9 — deadline rule on a block without a deadline line
(corrected) -/

lemma nameRule_pf (st : MemState) (lower : String) (now : Nat) :
    coreFind (nameRule st lower now).2.coreBlocks "project_facts" =
      coreFind st.coreBlocks "project_facts" := by
  unfold nameRule
  cases hn : nameMatch lower.data with
  | none => rfl
  | some cap =>
      simp only
      exact appendBlock_find_other st "user_info" _ now "project_facts" (by decide)

lemma rememberRule_pf (prev : Option Learned × MemState) (lower : String)
    (now : Nat) :
    coreFind (rememberRule prev lower now).2.coreBlocks "project_facts" =
      coreFind prev.2.coreBlocks "project_facts" := by
  unfold rememberRule
  cases hn : rememberMatch lower.data with
  | none => rfl
  | some cap =>
      simp only
      exact appendBlock_find_other prev.2 "user_info" _ now "project_facts" (by decide)

lemma prefRule_pf (prev : Option Learned × MemState) (lower message : String)
    (now : Nat) :
    coreFind (prefRule prev lower message now).2.coreBlocks "project_facts" =
      coreFind prev.2.coreBlocks "project_facts" := by
  unfold prefRule
  cases hn : prefMatch lower.data with
  | none => rfl
  | some pc =>
      simp only
      exact appendBlock_find_other prev.2 "user_info" _ now "project_facts" (by decide)

lemma subIdx_nil_pat (hay : List Char) : subIdx hay [] = some 0 := by
  cases hay with
  | nil => rfl
  | cons c t => simp [subIdx, List.isPrefixOf]

lemma replaceFirstL_nil_pat (hay rep : List Char) :
    replaceFirstL hay [] rep = rep ++ hay := by
  cases hay with
  | nil => simp [replaceFirstL]
  | cons c t => simp [replaceFirstL, List.isPrefixOf]

lemma mkString_append (a b : String) : (⟨a.data ++ b.data⟩ : String) = a ++ b := by
  cases a; cases b; rfl

lemma replaceBlock_empty_old (st : MemState) (l n' : String) (now : Nat)
    (b : Block) (hb : coreFind st.coreBlocks l = some b)
    (hro : b.readOnly = false) (hfit : (n' ++ b.value).length ≤ b.limit) :
    (replaceBlock st l "" n' now).1 = true ∧
    coreFind ((replaceBlock st l "" n' now).2).coreBlocks l =
      some { b with value := n' ++ b.value, lastModified := now,
                    editCount := b.editCount + 1 } := by
  have hdata : ("" : String).data = [] := rfl
  have hidx : (subIdx b.value.data ("" : String).data).isNone = false := by
    rw [hdata, subIdx_nil_pat]; rfl
  have hval : (⟨replaceFirstL b.value.data ("" : String).data n'.data⟩ : String) =
      n' ++ b.value := by
    rw [hdata, replaceFirstL_nil_pat, mkString_append]
  have hnot : ¬ (⟨replaceFirstL b.value.data ("" : String).data n'.data⟩ : String).length
      > b.limit := by
    rw [hval]; omega
  simp only [replaceBlock, hb, hro, Bool.false_eq_true, if_false, hidx, hnot]
  refine ⟨by trivial, ?_⟩
  rw [coreFind_updateFirst_same st.coreBlocks l
    (fun b0 =>
      { b0 with
        value := ⟨replaceFirstL b.value.data ("" : String).data n'.data⟩,
        lastModified := now, editCount := b0.editCount + 1 })
    (fun b0 => rfl), hb, Option.map_some']
  rw [hval, hro]

lemma deadlineRule_prepends (prev : Option Learned × MemState) (lower : String)
    (now : Nat) (b : Block) (cap : List Char)
    (hm : deadlineMatch lower.data = some cap)
    (hb : coreFind prev.2.coreBlocks "project_facts" = some b)
    (hro : b.readOnly = false)
    (hnoline : execDeadlineLine b.value.data = none)
    (hfit : (("Deadline: " ++ jsTrim ⟨cap⟩) ++ b.value).length ≤ b.limit) :
    ∃ b', coreFind (deadlineRule prev lower now).2.coreBlocks "project_facts" =
        some b' ∧
      b'.value = ("Deadline: " ++ jsTrim ⟨cap⟩) ++ b.value ∧
      b'.editCount = b.editCount + 1 := by
  unfold deadlineRule
  have hg : (coreGet prev.2 "project_facts").getD "null" = b.value := by
    simp [coreGet, hb]
  simp only [hm, hg, hnoline, Option.getD_none]
  obtain ⟨hsucc, hfind⟩ := replaceBlock_empty_old prev.2 "project_facts"
    ("Deadline: " ++ jsTrim ⟨cap⟩) now b hb hro hfit
  exact ⟨_, hfind, rfl, rfl⟩

/-- C9: when `project_facts` has no `Deadline:` line, a user message
matching the deadline pattern makes the Fact Extractor pass the empty
string as old text to `replace`; the empty string is found at position
0, so the new `Deadline:` text is prepended to the front of the block
and `edit_count` increments — provided the result fits the limit (see
the counterexample for the over-limit case, which the claim omits). -/
theorem deadline_prepends_when_fits (st : MemState) (msg : String) (now : Nat)
    (b : Block) (cap : List Char)
    (hb : coreFind st.coreBlocks "project_facts" = some b)
    (hro : b.readOnly = false)
    (hnoline : execDeadlineLine b.value.data = none)
    (hm : deadlineMatch (jsTrim (jsToLower msg)).data = some cap)
    (hfit : (("Deadline: " ++ jsTrim ⟨cap⟩) ++ b.value).length ≤ b.limit) :
    ∃ b', coreFind ((processUserMessage st msg now).2).coreBlocks "project_facts" =
        some b' ∧
      b'.value = ("Deadline: " ++ jsTrim ⟨cap⟩) ++ b.value ∧
      b'.editCount = b.editCount + 1 := by
  unfold processUserMessage
  simp only
  refine deadlineRule_prepends _ _ now b cap hm ?_ hro hnoline hfit
  rw [prefRule_pf, rememberRule_pf, nameRule_pf]
  exact hb

def c9stE : MemState := defineBlock initState "project_facts" ⟨"", 100, false, ""⟩ 0

/-- C9 witness: on an empty `project_facts` block (no `Deadline:` line)
with room to spare, `"deadline is friday"` prepends
`"Deadline: friday"` and bumps `edit_count`. -/
theorem deadline_prepends_when_fits_witness :
    ∃ b', coreFind ((processUserMessage c9stE "deadline is friday" 7).2).coreBlocks
        "project_facts" = some b' ∧
      b'.value = ("Deadline: " ++ jsTrim ⟨("friday" : String).data⟩) ++ "" ∧
      b'.editCount = 0 + 1 :=
  deadline_prepends_when_fits c9stE "deadline is friday" 7
    { label := "project_facts", value := "", limit := 100, readOnly := false,
      description := "", createdAt := 0, lastModified := 0, editCount := 0 }
    ("friday" : String).data (by decide) rfl (by decide) (by decide) (by decide)

def c9st : MemState := defineBlock initState "project_facts" ⟨"xyz", 3, false, ""⟩ 0

/-- C9 counterexample: the claim asserts the prepend (and the
`edit_count` increment) unconditionally, but when the prepended result
exceeds the limit of the block, `replace` refuses: here `project_facts` has
value `"xyz"` (no `Deadline:` line, limit 3), the message matches the
deadline pattern (the learned fact is reported), yet the state is
completely unchanged — no prepend, no `edit_count` increment. -/
theorem deadline_prepend_refused_cex :
    execDeadlineLine ("xyz" : String).data = none ∧
    (deadlineMatch (jsTrim (jsToLower "deadline is friday")).data).isSome = true ∧
    (processUserMessage c9st "deadline is friday" 7).2 = c9st ∧
    (processUserMessage c9st "deadline is friday" 7).1 =
      some ⟨"deadline", "friday"⟩ := by decide

/-! ## Claim C6 — session expiry and resumption at load (confirmed) -/

/-- C6: at initialization with a truthy stored session id and time and
a stored recall snapshot: if `now - last_touched` is strictly below the
30-minute timeout the same session id and all stored turns are resumed;
otherwise a fresh id (the generator's output for this run) is
installed, the Turn Log is reset to empty, and exactly when the old
session had more than 2 turns, exactly one new summary record is
appended whose `messageCount` (`turns_folded`) is the old session's
full turn count. -/
theorem session_init_resume_or_expire (stored : Stored) (now : Nat)
    (freshId page sid : String) (t : Nat) (ms : List Msg) (sa : Option Nat)
    (hsid : stored.lastSessionId = some sid) (hsid' : sid ≠ "")
    (ht : stored.lastSessionTime = some t) (ht' : t ≠ 0)
    (hrec : lookupRecall stored sid = some ⟨some ms, sa⟩) :
    (now - t < INACTIVITY_TIMEOUT →
      (loadState stored now freshId page).sessionId = some sid ∧
      (loadState stored now freshId page).messages = ms) ∧
    (¬ (now - t < INACTIVITY_TIMEOUT) →
      (loadState stored now freshId page).sessionId = some freshId ∧
      (loadState stored now freshId page).messages = [] ∧
      (2 < ms.length →
        (loadState stored now freshId page).summaries =
          trimSummaries (stored.summaries.getD [] ++ [mkExpiryRec sid ms now page]) ∧
        (mkExpiryRec sid ms now page).messageCount = ms.length) ∧
      (¬ 2 < ms.length →
        (loadState stored now freshId page).summaries = stored.summaries.getD [])) := by
  constructor
  · intro hlt
    refine ⟨?_, ?_⟩ <;>
      simp [loadState, hsid, ht, truthyStr, truthyNat, hsid', ht', hlt, hrec]
  · intro hge
    refine ⟨?_, ?_, ?_, ?_⟩
    · simp [loadState, hsid, ht, truthyStr, truthyNat, hsid', ht', hge]
    · simp [loadState, hsid, ht, truthyStr, truthyNat, hsid', ht', hge]
    · intro hlen
      refine ⟨?_, by simp [mkExpiryRec]⟩
      simp [loadState, hsid, ht, truthyStr, truthyNat, hsid', ht', hge, hrec, hlen]
    · intro hlen
      simp [loadState, hsid, ht, truthyStr, truthyNat, hsid', ht', hge, hrec, hlen]

def c6msgs : List Msg :=
  (List.range 5).map (fun i =>
    { id := i, role := "user", content := "m", timestamp := 0, page := "p",
      botName := none, tokens := 1 })

def c6stored : Stored :=
  { coreBlocks := none, summaries := some [], lastSessionId := some "ses_old",
    lastSessionTime := some 1,
    recallBySession := [("ses_old", { messages := some c6msgs, startedAt := some 1 })] }

/-- C6 witness: a stored session last touched 31 minutes before `now`
with 5 turns — both branches of the theorem instantiated (the expiry
branch is the live one at this clock reading). -/
theorem session_init_resume_or_expire_witness :
    (1860001 - 1 < INACTIVITY_TIMEOUT →
      (loadState c6stored 1860001 "ses_new" "p").sessionId = some "ses_old" ∧
      (loadState c6stored 1860001 "ses_new" "p").messages = c6msgs) ∧
    (¬ (1860001 - 1 < INACTIVITY_TIMEOUT) →
      (loadState c6stored 1860001 "ses_new" "p").sessionId = some "ses_new" ∧
      (loadState c6stored 1860001 "ses_new" "p").messages = [] ∧
      (2 < c6msgs.length →
        (loadState c6stored 1860001 "ses_new" "p").summaries =
          trimSummaries (c6stored.summaries.getD [] ++
            [mkExpiryRec "ses_old" c6msgs 1860001 "p"]) ∧
        (mkExpiryRec "ses_old" c6msgs 1860001 "p").messageCount = c6msgs.length) ∧
      (¬ 2 < c6msgs.length →
        (loadState c6stored 1860001 "ses_new" "p").summaries =
          c6stored.summaries.getD [])) :=
  session_init_resume_or_expire c6stored 1860001 "ses_new" "p" "ses_old" 1 c6msgs
    (some 1) (by decide) (by decide) (by decide) (by decide) (by decide)

end FPCS
